import Mathlib

/-!
Verification of the `bevy_flycam` fly-camera module (`src/lib.rs`).

The module's systems (`player_move`, `player_look`, `scroll`,
`toggle_grab_cursor`, `initial_grab_cursor`, `cursor_grab`, `get_boost`)
are shallowly embedded below.  `f32` arithmetic is modelled over `ℝ`;
3-vectors (`glam::Vec3`) are a 3-field structure and quaternions
(`glam::Quat`) are Mathlib's `Quaternion ℝ`, with `Quat::from_rotation_x`
and friends spelled out via half-angle cosine/sine.  Bevy resources are
passed explicitly: held keys are the iteration sequence produced by
`Input::get_pressed`, the window resource is an `Option Window`, and
mouse-motion / mouse-wheel events are lists.
-/

noncomputable section

namespace Flycam

open Real

/-- Model of `glam::Vec3`: three `f32` components, embedded over `ℝ`. -/
@[ext]
structure Vec3 where
  x : ℝ
  y : ℝ
  z : ℝ

namespace Vec3

instance : Zero Vec3 := ⟨⟨0, 0, 0⟩⟩

instance : Add Vec3 := ⟨fun a b => ⟨a.x + b.x, a.y + b.y, a.z + b.z⟩⟩

instance : Neg Vec3 := ⟨fun a => ⟨-a.x, -a.y, -a.z⟩⟩

instance : Sub Vec3 := ⟨fun a b => ⟨a.x - b.x, a.y - b.y, a.z - b.z⟩⟩

/-- Scalar multiplication written on the right, as `glam` writes `v * c`. -/
instance : HMul Vec3 ℝ Vec3 := ⟨fun v c => ⟨v.x * c, v.y * c, v.z * c⟩⟩

@[simp] theorem zero_x : (0 : Vec3).x = 0 := rfl

@[simp] theorem zero_y : (0 : Vec3).y = 0 := rfl

@[simp] theorem zero_z : (0 : Vec3).z = 0 := rfl

@[simp] theorem add_x (a b : Vec3) : (a + b).x = a.x + b.x := rfl

@[simp] theorem add_y (a b : Vec3) : (a + b).y = a.y + b.y := rfl

@[simp] theorem add_z (a b : Vec3) : (a + b).z = a.z + b.z := rfl

@[simp] theorem neg_x (a : Vec3) : (-a).x = -a.x := rfl

@[simp] theorem neg_y (a : Vec3) : (-a).y = -a.y := rfl

@[simp] theorem neg_z (a : Vec3) : (-a).z = -a.z := rfl

@[simp] theorem sub_x (a b : Vec3) : (a - b).x = a.x - b.x := rfl

@[simp] theorem sub_y (a b : Vec3) : (a - b).y = a.y - b.y := rfl

@[simp] theorem sub_z (a b : Vec3) : (a - b).z = a.z - b.z := rfl

@[simp] theorem smul_x (v : Vec3) (c : ℝ) : (v * c).x = v.x * c := rfl

@[simp] theorem smul_y (v : Vec3) (c : ℝ) : (v * c).y = v.y * c := rfl

@[simp] theorem smul_z (v : Vec3) (c : ℝ) : (v * c).z = v.z * c := rfl

instance : AddCommGroup Vec3 where
  add_assoc a b c := by ext <;> simp <;> ring
  zero_add a := by ext <;> simp
  add_zero a := by ext <;> simp
  add_comm a b := by ext <;> simp <;> ring
  neg_add_cancel a := by ext <;> simp
  sub_eq_add_neg a b := by ext <;> simp <;> ring
  nsmul := nsmulRec
  zsmul := zsmulRec

/-- Model of `glam::Vec3::Y`, the unit up vector. -/
def yUnit : Vec3 := ⟨0, 1, 0⟩

@[simp] theorem yUnit_x : yUnit.x = 0 := rfl

@[simp] theorem yUnit_y : yUnit.y = 1 := rfl

@[simp] theorem yUnit_z : yUnit.z = 0 := rfl

/-- Model of `glam::Vec3::dot`. -/
def dot (a b : Vec3) : ℝ := a.x * b.x + a.y * b.y + a.z * b.z

/-- Model of `glam::Vec3::cross`. -/
def cross (a b : Vec3) : Vec3 :=
  ⟨a.y * b.z - a.z * b.y, a.z * b.x - a.x * b.z, a.x * b.y - a.y * b.x⟩

/-- Model of `glam::Vec3::length`: the square root of the dot product with
itself. -/
def norm (v : Vec3) : ℝ := Real.sqrt (dot v v)

theorem dot_self_nonneg (v : Vec3) : 0 ≤ dot v v := by
  unfold dot; nlinarith [sq_nonneg v.x, sq_nonneg v.y, sq_nonneg v.z]

theorem norm_nonneg (v : Vec3) : 0 ≤ norm v := Real.sqrt_nonneg _

theorem norm_pos (v : Vec3) (h : 0 < dot v v) : 0 < norm v :=
  Real.sqrt_pos.mpr h

@[simp] theorem norm_zero : norm (0 : Vec3) = 0 := by
  simp [norm, dot]

theorem norm_smul (v : Vec3) (c : ℝ) : norm (v * c) = |c| * norm v := by
  have h : dot (v * c) (v * c) = c * c * dot v v := by
    simp only [dot, smul_x, smul_y, smul_z]; ring
  rw [norm, h, Real.sqrt_mul (mul_self_nonneg c), Real.sqrt_mul_self_eq_abs,
    norm]

open Classical in
/-- Model of `glam::Vec3::normalize_or_zero`: the vector scaled by the
reciprocal of its length when that length is nonzero (finite reciprocal),
and zero otherwise. -/
def normalize_or_zero (v : Vec3) : Vec3 :=
  if norm v = 0 then 0 else v * (1 / norm v)

theorem normalize_or_zero_of_norm_ne (v : Vec3) (h : norm v ≠ 0) :
    normalize_or_zero v = v * (1 / norm v) := by
  unfold normalize_or_zero; rw [if_neg h]

@[simp] theorem normalize_or_zero_zero : normalize_or_zero (0 : Vec3) = 0 := by
  unfold normalize_or_zero; rw [if_pos norm_zero]

theorem norm_normalize_or_zero (v : Vec3) :
    norm (normalize_or_zero v) = 0 ∨ norm (normalize_or_zero v) = 1 := by
  by_cases h : norm v = 0
  · left; unfold normalize_or_zero; rw [if_pos h]; exact norm_zero
  · right
    rw [normalize_or_zero_of_norm_ne v h, norm_smul]
    have hpos : 0 < norm v := lt_of_le_of_ne (norm_nonneg v) (Ne.symm h)
    rw [abs_of_nonneg (by positivity)]
    field_simp

theorem normalize_or_zero_y_eq_zero (v : Vec3) (h : v.y = 0) :
    (normalize_or_zero v).y = 0 := by
  unfold normalize_or_zero
  by_cases hn : norm v = 0
  · rw [if_pos hn]; simp
  · rw [if_neg hn]; simp [h]

end Vec3

/-- Model of `glam::Quat`: Mathlib's quaternions over `ℝ`, with `re` the
scalar part `w` and `imI`, `imJ`, `imK` the vector part `x`, `y`, `z`. -/
abbrev Quat := Quaternion ℝ

/-- Model of `glam::Quat::from_rotation_x`: half-angle cosine scalar part
and half-angle sine along the `i` (x) axis. -/
def fromRotX (θ : ℝ) : Quat := ⟨Real.cos (θ / 2), Real.sin (θ / 2), 0, 0⟩

/-- Model of `glam::Quat::from_rotation_y`. -/
def fromRotY (θ : ℝ) : Quat := ⟨Real.cos (θ / 2), 0, Real.sin (θ / 2), 0⟩

/-- Model of `glam::Quat::from_rotation_z`. -/
def fromRotZ (θ : ℝ) : Quat := ⟨Real.cos (θ / 2), 0, 0, Real.sin (θ / 2)⟩

@[simp] theorem fromRotX_re (θ : ℝ) : (fromRotX θ).re = Real.cos (θ / 2) := rfl

@[simp] theorem fromRotX_imI (θ : ℝ) : (fromRotX θ).imI = Real.sin (θ / 2) := rfl

@[simp] theorem fromRotX_imJ (θ : ℝ) : (fromRotX θ).imJ = 0 := rfl

@[simp] theorem fromRotX_imK (θ : ℝ) : (fromRotX θ).imK = 0 := rfl

@[simp] theorem fromRotY_re (θ : ℝ) : (fromRotY θ).re = Real.cos (θ / 2) := rfl

@[simp] theorem fromRotY_imI (θ : ℝ) : (fromRotY θ).imI = 0 := rfl

@[simp] theorem fromRotY_imJ (θ : ℝ) : (fromRotY θ).imJ = Real.sin (θ / 2) := rfl

@[simp] theorem fromRotY_imK (θ : ℝ) : (fromRotY θ).imK = 0 := rfl

@[simp] theorem fromRotZ_re (θ : ℝ) : (fromRotZ θ).re = Real.cos (θ / 2) := rfl

@[simp] theorem fromRotZ_imI (θ : ℝ) : (fromRotZ θ).imI = 0 := rfl

@[simp] theorem fromRotZ_imJ (θ : ℝ) : (fromRotZ θ).imJ = 0 := rfl

@[simp] theorem fromRotZ_imK (θ : ℝ) : (fromRotZ θ).imK = Real.sin (θ / 2) := rfl

theorem fromRotX_zero : fromRotX 0 = 1 := by
  ext <;> simp [fromRotX]

theorem fromRotY_zero : fromRotY 0 = 1 := by
  ext <;> simp [fromRotY]

theorem fromRotX_mul_fromRotX (a b : ℝ) :
    fromRotX a * fromRotX b = fromRotX (a + b) := by
  ext <;>
    simp only [Quaternion.mul_re, Quaternion.mul_imI, Quaternion.mul_imJ,
      Quaternion.mul_imK, fromRotX_re, fromRotX_imI, fromRotX_imJ,
      fromRotX_imK, add_div, Real.cos_add, Real.sin_add] <;>
    ring

theorem fromRotY_mul_fromRotY (a b : ℝ) :
    fromRotY a * fromRotY b = fromRotY (a + b) := by
  ext <;>
    simp only [Quaternion.mul_re, Quaternion.mul_imI, Quaternion.mul_imJ,
      Quaternion.mul_imK, fromRotY_re, fromRotY_imI, fromRotY_imJ,
      fromRotY_imK, add_div, Real.cos_add, Real.sin_add] <;>
    ring

/-- Model of `glam::Quat::mul_vec3` (the `Quat * Vec3` rotation used by
bevy 0.7 / glam 0.20): `v * (w*w - dot b b) + b * (dot v b * 2) +
cross b v * (w * 2)` where `w` is the scalar part and `b` the vector part. -/
def quatMulVec (q : Quat) (v : Vec3) : Vec3 :=
  let w := q.re
  let b : Vec3 := ⟨q.imI, q.imJ, q.imK⟩
  v * (w * w - Vec3.dot b b) + b * (Vec3.dot v b * 2) +
    Vec3.cross b v * (w * 2)

/-- Model of `f32::to_radians`: multiply by `PI / 180`. -/
def toRadians (x : ℝ) : ℝ := x * (Real.pi / 180)

/-- The `bevy::input::keyboard::KeyCode` variants the module reads, plus a
catch-all `Other` for every variant that only hits the wildcard arms. -/
inductive KeyCode where
  | W | Up | S | Down | A | Left | D | Right
  | Space | Period | RShift | Comma
  | LBracket | RBracket | Q | E | Z | X
  | LShift | O | Escape | Other
deriving DecidableEq

/-- Model of the `MovementSettings` resource. -/
structure MovementSettings where
  sensitivity : ℝ
  speed : ℝ
  boost : ℝ

/-- Model of `bevy::window::Window`: the fields the module reads or writes
(`width`, `height`, cursor lock mode, cursor visibility). -/
structure Window where
  width : ℝ
  height : ℝ
  cursorLocked : Bool
  cursorVisible : Bool
deriving DecidableEq

/-- Model of `bevy::transform::components::Transform`: the translation and
rotation the module reads and writes (scale is untouched). -/
@[ext]
structure Transform where
  translation : Vec3
  rotation : Quat

/-- Model of `glam::Vec2`, the payload of a mouse-motion delta. -/
structure Vec2 where
  x : ℝ
  y : ℝ

/-- Model of `bevy::input::mouse::MouseMotion`. -/
structure MouseMotion where
  delta : Vec2

/-- Model of the mouse-button state read through
`Input<MouseButton>::pressed`. -/
structure MouseButtons where
  left : Bool
  right : Bool

/-- Model of `Transform::local_z`: the rotation applied to `Vec3::Z`. -/
def Transform.local_z (t : Transform) : Vec3 := quatMulVec t.rotation ⟨0, 0, 1⟩

/-- Model of `Transform::forward`: the negated `local_z`. -/
def Transform.forward (t : Transform) : Vec3 := -t.local_z

/-- The `forward` local of `player_move`: `local_z` projected onto the
horizontal plane and negated, `-Vec3::new(local_z.x, 0., local_z.z)`. -/
def Transform.moveForward (t : Transform) : Vec3 :=
  -(⟨t.local_z.x, 0, t.local_z.z⟩ : Vec3)

/-- The `right` local of `player_move`:
`Vec3::new(local_z.z, 0., -local_z.x)`. -/
def Transform.moveRight (t : Transform) : Vec3 :=
  ⟨t.local_z.z, 0, -t.local_z.x⟩

/-- Model of `toggle_grab_cursor`: invert the window's cursor lock mode and
cursor visibility. -/
def toggle_grab_cursor (window : Window) : Window :=
  { window with
    cursorLocked := !window.cursorLocked
    cursorVisible := !window.cursorVisible }

/-- Model of `initial_grab_cursor`: toggle the primary window's cursor
grab, or warn (second component `true`) when there is no primary window. -/
def initial_grab_cursor (windows : Option Window) : Option Window × Bool :=
  match windows with
  | some window => (some (toggle_grab_cursor window), false)
  | none => (none, true)

/-- Model of `cursor_grab`: on Escape just pressed, toggle the primary
window's cursor grab; warn (second component `true`) when there is no
primary window. -/
def cursor_grab (justPressed : KeyCode → Bool) (windows : Option Window) :
    Option Window × Bool :=
  match windows with
  | some window =>
    if justPressed KeyCode.Escape then (some (toggle_grab_cursor window), false)
    else (some window, false)
  | none => (none, true)

/-- The loop body of `get_boost`: `LShift` sets the boost to
`settings.boost`, `O` sets it to `1 / settings.boost`, every other key
leaves it unchanged. -/
def boostStep (settings : MovementSettings) (boost : ℝ) (key : KeyCode) : ℝ :=
  match key with
  | KeyCode.LShift => settings.boost
  | KeyCode.O => 1 / settings.boost
  | _ => boost

/-- Model of `get_boost`: fold `boostStep` over the pressed-key sequence
starting from `1`. -/
def get_boost (pressed : List KeyCode) (settings : MovementSettings) : ℝ :=
  pressed.foldl (boostStep settings) 1

/-- The four accumulators of the `player_move` key loop: the velocity sum
and the `rx`, `ry`, `rz` rotation amounts. -/
structure MoveAccum where
  velocity : Vec3
  rx : ℝ
  ry : ℝ
  rz : ℝ

/-- The loop body of `player_move` over one pressed key. -/
def moveStep (forward right : Vec3) (dt : ℝ) (acc : MoveAccum)
    (key : KeyCode) : MoveAccum :=
  match key with
  | KeyCode.W | KeyCode.Up => { acc with velocity := acc.velocity + forward }
  | KeyCode.S | KeyCode.Down => { acc with velocity := acc.velocity - forward }
  | KeyCode.A | KeyCode.Left => { acc with velocity := acc.velocity - right }
  | KeyCode.D | KeyCode.Right => { acc with velocity := acc.velocity + right }
  | KeyCode.Space | KeyCode.Period =>
      { acc with velocity := acc.velocity + Vec3.yUnit }
  | KeyCode.RShift | KeyCode.Comma =>
      { acc with velocity := acc.velocity - Vec3.yUnit }
  | KeyCode.LBracket => { acc with ry := acc.ry - dt }
  | KeyCode.RBracket => { acc with ry := acc.ry + dt }
  | KeyCode.Q => { acc with rx := acc.rx - dt }
  | KeyCode.E => { acc with rx := acc.rx + dt }
  | KeyCode.Z => { acc with rz := acc.rz - dt }
  | KeyCode.X => { acc with rz := acc.rz + dt }
  | _ => acc

/-- Model of the per-`FlyCam`-entity body of the `player_move` system:
accumulate velocity and key-driven rotation amounts over the pressed keys,
normalize the velocity, advance the translation, then apply yaw, pitch and
roll rotations. `dt` is `time.delta_seconds()` and `keys` is the sequence
yielded by `keys.get_pressed()`. -/
def player_move (keys : List KeyCode) (dt : ℝ) (settings : MovementSettings)
    (t : Transform) : Transform :=
  let forward := t.moveForward
  let right := t.moveRight
  let boost := get_boost keys settings
  let acc := keys.foldl (moveStep forward right dt) ⟨0, 0, 0, 0⟩
  let velocity := Vec3.normalize_or_zero acc.velocity
  let delta_x := settings.speed * boost * acc.rx / 100 * Real.pi * 2
  let delta_y := settings.speed * boost * acc.ry / 100 * Real.pi
  let delta_z := settings.speed * boost * acc.rz / 100 * Real.pi
  let yaw := fromRotY (-delta_x)
  let pitch := fromRotX (-delta_y)
  let roll := fromRotZ (-delta_z)
  { translation := t.translation + velocity * dt * settings.speed * boost
    rotation := yaw * t.rotation * pitch * roll }

/-- The body of the `player_look` event loop for one mouse-motion event:
pre-multiply by the yaw rotation about global Y, post-multiply by the
pitch rotation about local X, both scaled by
`sensitivity * delta * min(height, width)` degrees. -/
def lookStep (settings : MovementSettings) (window : Window) (t : Transform)
    (ev : MouseMotion) : Transform :=
  let window_scale := min window.height window.width
  let yaw :=
    fromRotY (-(toRadians (settings.sensitivity * ev.delta.x * window_scale)))
  let pitch :=
    fromRotX (-(toRadians (settings.sensitivity * ev.delta.y * window_scale)))
  { t with rotation := yaw * t.rotation * pitch }

/-- Model of the `player_look` system (non-wasm path).  With no primary
window it only warns (second component `true`).  With a primary window it
returns early when the cursor is not locked and neither mouse button is
pressed.  Otherwise the first `FlyCam` transform folds over all pending
mouse-motion events; the `ManualEventReader` is exhausted after that, so
later transforms in the query see no events. -/
def player_look (settings : MovementSettings) (windows : Option Window)
    (motion : List MouseMotion) (buttons : MouseButtons)
    (transforms : List Transform) : List Transform × Bool :=
  match windows with
  | some window =>
    let please_move := buttons.left || buttons.right
    if !window.cursorLocked && !please_move then (transforms, false)
    else
      match transforms with
      | [] => ([], false)
      | t :: rest => (motion.foldl (lookStep settings window) t :: rest, false)
  | none => (transforms, true)

/-- The body of the `scroll` system for one mouse-wheel event and one
`FlyCam` transform: advance the translation along `forward` by the wheel
amount scaled by sensitivity (times `1024`, or `10` on wasm) and boost. -/
def scrollStep (wasm : Bool) (settings : MovementSettings)
    (keys : List KeyCode) (eventY : ℝ) (t : Transform) : Transform :=
  let sensitivity : ℝ :=
    if wasm then settings.sensitivity * 10 else settings.sensitivity * 1024
  let forward := t.forward
  { t with
    translation :=
      t.translation + forward * eventY * sensitivity * get_boost keys settings }

/-- Model of the `scroll` system: every pending mouse-wheel event is
applied to every `FlyCam` transform. -/
def scroll (wasm : Bool) (settings : MovementSettings) (keys : List KeyCode)
    (events : List ℝ) (transforms : List Transform) : List Transform :=
  events.foldl
    (fun ts eventY => ts.map (scrollStep wasm settings keys eventY)) transforms

/-! ### Helper lemmas about the key folds -/

/-- The movement direction a single pressed key contributes to the
velocity sum in `player_move` (zero for non-movement keys). -/
def keyDir (forward right : Vec3) : KeyCode → Vec3
  | KeyCode.W | KeyCode.Up => forward
  | KeyCode.S | KeyCode.Down => -forward
  | KeyCode.A | KeyCode.Left => -right
  | KeyCode.D | KeyCode.Right => right
  | KeyCode.Space | KeyCode.Period => Vec3.yUnit
  | KeyCode.RShift | KeyCode.Comma => -Vec3.yUnit
  | _ => 0

/-- The velocity accumulated by the `player_move` key loop: the sum of the
per-key movement directions. -/
def movementVelocity (forward right : Vec3) (keys : List KeyCode) : Vec3 :=
  keys.foldl (fun v k => v + keyDir forward right k) 0

theorem moveStep_velocity (forward right : Vec3) (dt : ℝ) (acc : MoveAccum)
    (k : KeyCode) :
    (moveStep forward right dt acc k).velocity =
      acc.velocity + keyDir forward right k := by
  cases k <;> simp [moveStep, keyDir, sub_eq_add_neg]

theorem foldl_velocity_shift (forward right : Vec3) (keys : List KeyCode) :
    ∀ v : Vec3,
      keys.foldl (fun v k => v + keyDir forward right k) v =
        v + keys.foldl (fun v k => v + keyDir forward right k) 0 := by
  induction keys with
  | nil => intro v; simp
  | cons k rest ih =>
    intro v
    simp only [List.foldl_cons]
    rw [ih (v + keyDir forward right k), ih (0 + keyDir forward right k)]
    abel

theorem movementVelocity_cons (forward right : Vec3) (k : KeyCode)
    (rest : List KeyCode) :
    movementVelocity forward right (k :: rest) =
      keyDir forward right k + movementVelocity forward right rest := by
  simp only [movementVelocity, List.foldl_cons]
  rw [foldl_velocity_shift]
  abel

theorem foldl_moveStep_velocity (forward right : Vec3) (dt : ℝ)
    (keys : List KeyCode) :
    ∀ acc : MoveAccum,
      (keys.foldl (moveStep forward right dt) acc).velocity =
        acc.velocity + movementVelocity forward right keys := by
  induction keys with
  | nil => intro acc; simp [movementVelocity]
  | cons k rest ih =>
    intro acc
    simp only [List.foldl_cons]
    rw [ih (moveStep forward right dt acc k), moveStep_velocity,
      movementVelocity_cons]
    abel

/-- The translation update performed by `player_move`: move by the
normalized velocity sum scaled by `dt * speed * boost`. -/
theorem player_move_translation (keys : List KeyCode) (dt : ℝ)
    (settings : MovementSettings) (t : Transform) :
    (player_move keys dt settings t).translation =
      t.translation +
        Vec3.normalize_or_zero
            (movementVelocity t.moveForward t.moveRight keys) *
          dt * settings.speed * get_boost keys settings := by
  simp only [player_move]
  rw [foldl_moveStep_velocity]
  simp

theorem boostStep_other (settings : MovementSettings) (b : ℝ) (k : KeyCode)
    (h1 : k ≠ KeyCode.LShift) (h2 : k ≠ KeyCode.O) :
    boostStep settings b k = b := by
  cases k <;> simp_all [boostStep]

theorem foldl_boostStep_id (settings : MovementSettings)
    (keys : List KeyCode) :
    ∀ b : ℝ, KeyCode.LShift ∉ keys → KeyCode.O ∉ keys →
      keys.foldl (boostStep settings) b = b := by
  induction keys with
  | nil => intro b _ _; rfl
  | cons k rest ih =>
    intro b hL hO
    have hkL : k ≠ KeyCode.LShift := fun h => hL (h ▸ List.mem_cons_self k rest)
    have hkO : k ≠ KeyCode.O := fun h => hO (h ▸ List.mem_cons_self k rest)
    simp only [List.foldl_cons, boostStep_other settings b k hkL hkO]
    exact ih b (fun h => hL (List.mem_cons_of_mem k h))
      (fun h => hO (List.mem_cons_of_mem k h))

theorem foldl_boostStep_absorb_lshift (settings : MovementSettings)
    (keys : List KeyCode) :
    KeyCode.O ∉ keys →
      keys.foldl (boostStep settings) settings.boost = settings.boost := by
  induction keys with
  | nil => intro _; rfl
  | cons k rest ih =>
    intro hO
    have hkO : k ≠ KeyCode.O := fun h => hO (h ▸ List.mem_cons_self k rest)
    have hrest : KeyCode.O ∉ rest := fun h => hO (List.mem_cons_of_mem k h)
    by_cases hk : k = KeyCode.LShift
    · subst hk
      simp only [List.foldl_cons, boostStep]
      exact ih hrest
    · simp only [List.foldl_cons, boostStep_other settings _ k hk hkO]
      exact ih hrest

theorem foldl_boostStep_absorb_o (settings : MovementSettings)
    (keys : List KeyCode) :
    KeyCode.LShift ∉ keys →
      keys.foldl (boostStep settings) (1 / settings.boost) =
        1 / settings.boost := by
  induction keys with
  | nil => intro _; rfl
  | cons k rest ih =>
    intro hL
    have hkL : k ≠ KeyCode.LShift := fun h => hL (h ▸ List.mem_cons_self k rest)
    have hrest : KeyCode.LShift ∉ rest := fun h => hL (List.mem_cons_of_mem k h)
    by_cases hk : k = KeyCode.O
    · subst hk
      simp only [List.foldl_cons, boostStep]
      exact ih hrest
    · simp only [List.foldl_cons, boostStep_other settings _ k hkL hk]
      exact ih hrest

theorem foldl_boostStep_lshift (settings : MovementSettings)
    (keys : List KeyCode) :
    ∀ b : ℝ, KeyCode.LShift ∈ keys → KeyCode.O ∉ keys →
      keys.foldl (boostStep settings) b = settings.boost := by
  induction keys with
  | nil => intro b h _; exact absurd h (List.not_mem_nil _)
  | cons k rest ih =>
    intro b hin hO
    have hkO : k ≠ KeyCode.O := fun h => hO (h ▸ List.mem_cons_self k rest)
    have hrest : KeyCode.O ∉ rest := fun h => hO (List.mem_cons_of_mem k h)
    by_cases hk : k = KeyCode.LShift
    · subst hk
      simp only [List.foldl_cons, boostStep]
      exact foldl_boostStep_absorb_lshift settings rest hrest
    · have hinr : KeyCode.LShift ∈ rest := by
        rcases List.mem_cons.mp hin with h | h
        · exact absurd h.symm hk
        · exact h
      simp only [List.foldl_cons, boostStep_other settings b k hk hkO]
      exact ih b hinr hrest

theorem foldl_boostStep_o (settings : MovementSettings)
    (keys : List KeyCode) :
    ∀ b : ℝ, KeyCode.O ∈ keys → KeyCode.LShift ∉ keys →
      keys.foldl (boostStep settings) b = 1 / settings.boost := by
  induction keys with
  | nil => intro b h _; exact absurd h (List.not_mem_nil _)
  | cons k rest ih =>
    intro b hin hL
    have hkL : k ≠ KeyCode.LShift := fun h => hL (h ▸ List.mem_cons_self k rest)
    have hrest : KeyCode.LShift ∉ rest := fun h => hL (List.mem_cons_of_mem k h)
    by_cases hk : k = KeyCode.O
    · subst hk
      simp only [List.foldl_cons, boostStep]
      exact foldl_boostStep_absorb_o settings rest hrest
    · have hinr : KeyCode.O ∈ rest := by
        rcases List.mem_cons.mp hin with h | h
        · exact absurd h.symm hk
        · exact h
      simp only [List.foldl_cons, boostStep_other settings b k hkL hk]
      exact ih b hinr hrest

theorem get_boost_of_lshift (settings : MovementSettings)
    (keys : List KeyCode) (hin : KeyCode.LShift ∈ keys)
    (hout : KeyCode.O ∉ keys) :
    get_boost keys settings = settings.boost :=
  foldl_boostStep_lshift settings keys 1 hin hout

theorem get_boost_of_o (settings : MovementSettings) (keys : List KeyCode)
    (hin : KeyCode.O ∈ keys) (hout : KeyCode.LShift ∉ keys) :
    get_boost keys settings = 1 / settings.boost :=
  foldl_boostStep_o settings keys 1 hin hout

theorem get_boost_of_neither (settings : MovementSettings)
    (keys : List KeyCode) (h1 : KeyCode.LShift ∉ keys)
    (h2 : KeyCode.O ∉ keys) : get_boost keys settings = 1 :=
  foldl_boostStep_id settings keys 1 h1 h2

theorem boostStep_pos (settings : MovementSettings) (b : ℝ) (k : KeyCode)
    (hs : 0 < settings.boost) (hb : 0 < b) : 0 < boostStep settings b k := by
  cases k <;> simp [boostStep] <;> positivity

theorem get_boost_pos (settings : MovementSettings) (keys : List KeyCode)
    (hs : 0 < settings.boost) : 0 < get_boost keys settings := by
  rw [get_boost]
  have : ∀ b : ℝ, 0 < b → 0 < keys.foldl (boostStep settings) b := by
    induction keys with
    | nil => intro b hb; simpa using hb
    | cons k rest ih =>
      intro b hb
      simp only [List.foldl_cons]
      exact ih _ (boostStep_pos settings b k hs hb)
  exact this 1 one_pos

/-- The twelve keys that feed the velocity sum of `player_move`. -/
def isMovementKey : KeyCode → Bool
  | KeyCode.W | KeyCode.Up | KeyCode.S | KeyCode.Down
  | KeyCode.A | KeyCode.Left | KeyCode.D | KeyCode.Right
  | KeyCode.Space | KeyCode.Period | KeyCode.RShift | KeyCode.Comma => true
  | _ => false

theorem keyDir_of_not_movement (forward right : Vec3) (k : KeyCode)
    (h : isMovementKey k = false) : keyDir forward right k = 0 := by
  cases k <;> simp_all [isMovementKey, keyDir]

theorem movementVelocity_of_no_movement (forward right : Vec3)
    (keys : List KeyCode) (h : ∀ k ∈ keys, isMovementKey k = false) :
    movementVelocity forward right keys = 0 := by
  induction keys with
  | nil => rfl
  | cons k rest ih =>
    rw [movementVelocity_cons,
      keyDir_of_not_movement forward right k (h k (List.mem_cons_self k rest)),
      ih (fun x hx => h x (List.mem_cons_of_mem k hx)), add_zero]

@[simp] theorem Vec3.zero_smul (c : ℝ) : (0 : Vec3) * c = 0 := by
  ext <;> simp

@[simp] theorem Vec3.smul_one (v : Vec3) : v * (1 : ℝ) = v := by
  ext <;> simp

theorem keyDir_y_eq_zero (forward right : Vec3) (hf : forward.y = 0)
    (hr : right.y = 0) (k : KeyCode) (h1 : k ≠ KeyCode.Space)
    (h2 : k ≠ KeyCode.Period) (h3 : k ≠ KeyCode.RShift)
    (h4 : k ≠ KeyCode.Comma) : (keyDir forward right k).y = 0 := by
  cases k <;> simp_all [keyDir]

theorem movementVelocity_y_eq_zero (forward right : Vec3)
    (hf : forward.y = 0) (hr : right.y = 0) (keys : List KeyCode)
    (h1 : KeyCode.Space ∉ keys) (h2 : KeyCode.Period ∉ keys)
    (h3 : KeyCode.RShift ∉ keys) (h4 : KeyCode.Comma ∉ keys) :
    (movementVelocity forward right keys).y = 0 := by
  induction keys with
  | nil => rfl
  | cons k rest ih =>
    rw [movementVelocity_cons]
    rw [Vec3.add_y,
      keyDir_y_eq_zero forward right hf hr k
        (fun h => h1 (h ▸ List.mem_cons_self k rest))
        (fun h => h2 (h ▸ List.mem_cons_self k rest))
        (fun h => h3 (h ▸ List.mem_cons_self k rest))
        (fun h => h4 (h ▸ List.mem_cons_self k rest)),
      ih (fun h => h1 (List.mem_cons_of_mem k h))
        (fun h => h2 (List.mem_cons_of_mem k h))
        (fun h => h3 (List.mem_cons_of_mem k h))
        (fun h => h4 (List.mem_cons_of_mem k h)), add_zero]

theorem moveForward_y (t : Transform) : t.moveForward.y = 0 := by
  simp [Transform.moveForward]

theorem moveRight_y (t : Transform) : t.moveRight.y = 0 := rfl

/-! ### Concrete inputs used by witnesses and counterexamples -/

/-- The `Default` values of `MovementSettings` in the source. -/
def defaultSettings : MovementSettings := ⟨0.00012, 12, 4⟩

/-- A transform at the origin with identity orientation. -/
def t0 : Transform := ⟨0, 1⟩

/-- Settings with sensitivity and speed `1` (boost factor `4`). -/
def sUnit : MovementSettings := ⟨1, 1, 4⟩

/-- A 100 by 100 primary window with the cursor locked and hidden. -/
def wLocked : Window := ⟨100, 100, true, false⟩

/-- A unit quaternion `(w, x, y, z) = (3/5, 4/5, 0, 0)`: a pure pitch
rotation about the x axis with `cos θ = -7/25`. -/
def qPitch : Quat := ⟨3 / 5, 4 / 5, 0, 0⟩

/-- A camera at the origin pitched by `qPitch`. -/
def tPitched : Transform := ⟨0, qPitch⟩

/-- A mouse-motion event whose vertical delta amounts to 180 degrees of
pitch under `sUnit` sensitivity on `wLocked`. -/
def evFlip : MouseMotion := ⟨⟨0, -(9 / 5)⟩⟩

theorem tPitched_local_z : tPitched.local_z = ⟨0, -(24 / 25), -(7 / 25)⟩ := by
  ext <;>
    simp [Transform.local_z, quatMulVec, tPitched, qPitch, Vec3.cross,
      Vec3.dot] <;>
    norm_num

theorem tPitched_moveForward : tPitched.moveForward = ⟨0, 0, 7 / 25⟩ := by
  rw [Transform.moveForward, tPitched_local_z]
  ext <;> simp

theorem tPitched_forward : tPitched.forward = ⟨0, 24 / 25, 7 / 25⟩ := by
  rw [Transform.forward, tPitched_local_z]
  ext <;> simp

theorem mv_wspace :
    movementVelocity tPitched.moveForward tPitched.moveRight
      [KeyCode.W, KeyCode.Space] = ⟨0, 1, 7 / 25⟩ := by
  rw [movementVelocity_cons, movementVelocity_cons, tPitched_moveForward]
  show (⟨0, 0, 7 / 25⟩ : Vec3) + (Vec3.yUnit + 0) = _
  ext <;> simp

/-! ### Claim theorems -/

/-- C2: each mouse-motion event processed by `player_look` pre-multiplies
the rotation by a yaw quaternion about global Y through
`-(sensitivity * dx * min(height, width))` degrees converted to radians,
and post-multiplies by a pitch quaternion about local X through
`-(sensitivity * dy * min(height, width))` degrees converted to radians,
in that order; the system applies this per-event update by folding over
the pending events. -/
theorem c2_look_rotation_update (settings : MovementSettings)
    (window : Window) (t : Transform) (ev : MouseMotion)
    (motion : List MouseMotion) (buttons : MouseButtons)
    (rest : List Transform) (hlock : window.cursorLocked = true) :
    (lookStep settings window t ev).rotation =
      fromRotY (-(toRadians
          (settings.sensitivity * ev.delta.x * min window.height window.width))) *
        t.rotation *
        fromRotX (-(toRadians
          (settings.sensitivity * ev.delta.y * min window.height window.width))) ∧
    (lookStep settings window t ev).translation = t.translation ∧
    player_look settings (some window) motion buttons (t :: rest) =
      (motion.foldl (lookStep settings window) t :: rest, false) := by
  refine ⟨rfl, rfl, ?_⟩
  simp [player_look, hlock]

/-- C2 witness: the locked-window branch of `player_look` at a concrete
window, event list, and camera. -/
theorem c2_look_rotation_update_witness :
    wLocked.cursorLocked = true ∧
    player_look defaultSettings (some wLocked) [⟨⟨3, 4⟩⟩] ⟨false, false⟩
        [t0] =
      ([List.foldl (lookStep defaultSettings wLocked) t0 [⟨⟨3, 4⟩⟩]], false) :=
  ⟨rfl,
    (c2_look_rotation_update defaultSettings wLocked t0 ⟨⟨3, 4⟩⟩ [⟨⟨3, 4⟩⟩]
        ⟨false, false⟩ [] rfl).2.2⟩

/-- C4: orientations of the form yaw-about-global-Y times
pitch-about-local-X (no roll) are closed under any sequence of
`player_look` mouse-motion updates. -/
theorem c4_no_roll_invariant (settings : MovementSettings) (window : Window)
    (t : Transform) (evs : List MouseMotion) (a b : ℝ)
    (h : t.rotation = fromRotY a * fromRotX b) :
    ∃ a2 b2 : ℝ,
      (evs.foldl (lookStep settings window) t).rotation =
        fromRotY a2 * fromRotX b2 := by
  induction evs generalizing t a b with
  | nil => exact ⟨a, b, h⟩
  | cons ev rest ih =>
    simp only [List.foldl_cons]
    apply ih (lookStep settings window t ev)
      (-(toRadians
          (settings.sensitivity * ev.delta.x * min window.height window.width)) + a)
      (b + -(toRadians
          (settings.sensitivity * ev.delta.y * min window.height window.width)))
    simp only [lookStep]
    rw [h, ← fromRotY_mul_fromRotY, ← fromRotX_mul_fromRotX]
    simp [mul_assoc]

/-- C4 witness: the no-roll invariant applied from the identity
orientation across one concrete event. -/
theorem c4_no_roll_invariant_witness :
    t0.rotation = fromRotY 0 * fromRotX 0 ∧
    ∃ a2 b2 : ℝ,
      (([⟨⟨3, 4⟩⟩] : List MouseMotion).foldl
          (lookStep defaultSettings wLocked) t0).rotation =
        fromRotY a2 * fromRotX b2 := by
  have hstart : t0.rotation = fromRotY 0 * fromRotX 0 := by
    rw [fromRotY_zero, fromRotX_zero, one_mul]
    rfl
  exact ⟨hstart,
    c4_no_roll_invariant defaultSettings wLocked t0 [⟨⟨3, 4⟩⟩] 0 0 hstart⟩

/-- C6: each mouse-wheel event moves each `FlyCam` camera along its
forward vector by the wheel amount times `sensitivity * 1024`
(`sensitivity * 10` on wasm) times the boost, and no wheel input ever
changes any rotation. -/
theorem c6_scroll_translation (wasm : Bool) (settings : MovementSettings)
    (keys : List KeyCode) (y : ℝ) (t : Transform) (events : List ℝ)
    (transforms : List Transform) :
    (scrollStep wasm settings keys y t).translation =
      t.translation +
        t.forward * y *
          (if wasm then settings.sensitivity * 10
           else settings.sensitivity * 1024) *
          get_boost keys settings ∧
    (scrollStep wasm settings keys y t).rotation = t.rotation ∧
    (scroll wasm settings keys events transforms).map Transform.rotation =
      transforms.map Transform.rotation := by
  refine ⟨rfl, rfl, ?_⟩
  induction events generalizing transforms with
  | nil => rfl
  | cons e rest ih =>
    simp only [scroll, List.foldl_cons] at ih ⊢
    rw [ih, List.map_map]
    rfl

/-- C7: `toggle_grab_cursor` inverts the cursor lock mode and the cursor
visibility, is an involution, and preserves the relation
lock-state equals not-visibility. -/
theorem c7_toggle_involution (w : Window) :
    toggle_grab_cursor (toggle_grab_cursor w) = w ∧
    (toggle_grab_cursor w).cursorLocked = !w.cursorLocked ∧
    (toggle_grab_cursor w).cursorVisible = !w.cursorVisible ∧
    (w.cursorLocked = !w.cursorVisible →
      (toggle_grab_cursor w).cursorLocked =
        !(toggle_grab_cursor w).cursorVisible) := by
  refine ⟨?_, rfl, rfl, ?_⟩
  · simp [toggle_grab_cursor]
  · intro h
    simp [toggle_grab_cursor, h]

/-- C7 witness: the toggle evaluated on a concrete locked, hidden-cursor
window. -/
theorem c7_toggle_involution_witness :
    (Window.mk 100 100 true false).cursorLocked =
      !(Window.mk 100 100 true false).cursorVisible ∧
    (toggle_grab_cursor (Window.mk 100 100 true false)).cursorLocked =
      !(toggle_grab_cursor (Window.mk 100 100 true false)).cursorVisible ∧
    toggle_grab_cursor (toggle_grab_cursor (Window.mk 100 100 true false)) =
      Window.mk 100 100 true false :=
  ⟨rfl, (c7_toggle_involution (Window.mk 100 100 true false)).2.2.2 rfl,
    (c7_toggle_involution (Window.mk 100 100 true false)).1⟩

/-- C8: with no primary window, `initial_grab_cursor`, `player_look`, and
`cursor_grab` each only log a warning (second component `true`): no
transform is modified and no cursor state changes. -/
theorem c8_missing_window_warn (settings : MovementSettings)
    (motion : List MouseMotion) (buttons : MouseButtons)
    (transforms : List Transform) (justPressed : KeyCode → Bool) :
    initial_grab_cursor none = (none, true) ∧
    player_look settings none motion buttons transforms =
      (transforms, true) ∧
    cursor_grab justPressed none = (none, true) :=
  ⟨rfl, rfl, rfl⟩

/-- C9: when the cursor is not locked and neither mouse button is pressed,
`player_look` returns early and leaves every transform unchanged,
whatever mouse-motion events are pending. -/
theorem c9_look_gating (settings : MovementSettings) (window : Window)
    (motion : List MouseMotion) (buttons : MouseButtons)
    (transforms : List Transform) (hlock : window.cursorLocked = false)
    (hleft : buttons.left = false) (hright : buttons.right = false) :
    player_look settings (some window) motion buttons transforms =
      (transforms, false) := by
  simp [player_look, hlock, hleft, hright]

/-- C9 witness: the unlocked, no-button early return on a concrete window
with one pending event. -/
theorem c9_look_gating_witness :
    (Window.mk 1280 720 false true).cursorLocked = false ∧
    (MouseButtons.mk false false).left = false ∧
    (MouseButtons.mk false false).right = false ∧
    player_look defaultSettings (some (Window.mk 1280 720 false true))
        [⟨⟨3, 4⟩⟩] (MouseButtons.mk false false) [t0] = ([t0], false) :=
  ⟨rfl, rfl, rfl,
    c9_look_gating defaultSettings (Window.mk 1280 720 false true) [⟨⟨3, 4⟩⟩]
      (MouseButtons.mk false false) [t0] rfl rfl rfl⟩

/-- C5: the `forward` and `right` vectors used by `player_move` for
W/S/A/D and arrow keys have zero Y component, so holding any keys other
than Space/Period (up) and RShift/Comma (down) never changes the camera's
Y translation. -/
theorem c5_horizontal_projection (t : Transform) (keys : List KeyCode)
    (dt : ℝ) (settings : MovementSettings) (h1 : KeyCode.Space ∉ keys)
    (h2 : KeyCode.Period ∉ keys) (h3 : KeyCode.RShift ∉ keys)
    (h4 : KeyCode.Comma ∉ keys) :
    t.moveForward.y = 0 ∧ t.moveRight.y = 0 ∧
    (player_move keys dt settings t).translation.y = t.translation.y := by
  refine ⟨moveForward_y t, moveRight_y t, ?_⟩
  rw [player_move_translation]
  have hN :
      (Vec3.normalize_or_zero
          (movementVelocity t.moveForward t.moveRight keys)).y = 0 :=
    Vec3.normalize_or_zero_y_eq_zero _
      (movementVelocity_y_eq_zero t.moveForward t.moveRight (moveForward_y t)
        (moveRight_y t) keys h1 h2 h3 h4)
  simp [hN]

/-- C5 witness: holding W and A at a concrete pitched camera leaves the Y
translation unchanged. -/
theorem c5_horizontal_projection_witness :
    KeyCode.Space ∉ [KeyCode.W, KeyCode.A] ∧
    KeyCode.Period ∉ [KeyCode.W, KeyCode.A] ∧
    KeyCode.RShift ∉ [KeyCode.W, KeyCode.A] ∧
    KeyCode.Comma ∉ [KeyCode.W, KeyCode.A] ∧
    (tPitched.moveForward.y = 0 ∧ tPitched.moveRight.y = 0 ∧
      (player_move [KeyCode.W, KeyCode.A] 1 defaultSettings
          tPitched).translation.y = tPitched.translation.y) :=
  ⟨by decide, by decide, by decide, by decide,
    c5_horizontal_projection tPitched [KeyCode.W, KeyCode.A] 1
      defaultSettings (by decide) (by decide) (by decide) (by decide)⟩

/-- C10: the magnitude of the translation change of one `player_move`
invocation is either exactly `0` or exactly
`dt * speed * boost` (for nonnegative `dt` and `speed` and positive
configured boost); diagonal movement is no faster than a single key. -/
theorem c10_normalized_speed (t : Transform) (keys : List KeyCode) (dt : ℝ)
    (settings : MovementSettings) (hdt : 0 ≤ dt) (hsp : 0 ≤ settings.speed)
    (hb : 0 < settings.boost) :
    ((player_move keys dt settings t).translation - t.translation).norm = 0 ∨
    ((player_move keys dt settings t).translation - t.translation).norm =
      dt * settings.speed * get_boost keys settings := by
  have hD : (player_move keys dt settings t).translation - t.translation =
      Vec3.normalize_or_zero
          (movementVelocity t.moveForward t.moveRight keys) *
        dt * settings.speed * get_boost keys settings := by
    rw [player_move_translation, add_sub_cancel_left]
  rw [hD, Vec3.norm_smul, Vec3.norm_smul, Vec3.norm_smul]
  have hboost := get_boost_pos settings keys hb
  rcases Vec3.norm_normalize_or_zero
      (movementVelocity t.moveForward t.moveRight keys) with h | h
  · left
    rw [h]
    ring
  · right
    rw [h, abs_of_nonneg hdt, abs_of_nonneg hsp, abs_of_nonneg hboost.le]
    ring

/-- C10 witness: one held key at the default settings moves by exactly
`dt * speed * boost`. -/
theorem c10_normalized_speed_witness :
    (0 : ℝ) ≤ 1 ∧ 0 ≤ defaultSettings.speed ∧ 0 < defaultSettings.boost ∧
    (((player_move [KeyCode.W] 1 defaultSettings t0).translation -
          t0.translation).norm = 0 ∨
      ((player_move [KeyCode.W] 1 defaultSettings t0).translation -
          t0.translation).norm =
        1 * defaultSettings.speed * get_boost [KeyCode.W] defaultSettings) :=
  ⟨by norm_num, by norm_num [defaultSettings], by norm_num [defaultSettings],
    c10_normalized_speed t0 [KeyCode.W] 1 defaultSettings (by norm_num)
      (by norm_num [defaultSettings]) (by norm_num [defaultSettings])⟩

/-- C1 (amended): one `player_move` invocation changes the translation by
`normalize_or_zero` of the sum of the per-key direction vectors — W/Up add
the horizontally projected, un-normalized forward vector
`-(local_z.x, 0, local_z.z)`, S/Down subtract it, D/Right add the
horizontal right vector `(local_z.z, 0, -local_z.x)`, A/Left subtract it,
Space/Period add unit Y and RShift/Comma subtract unit Y — scaled by
`delta_seconds * speed * boost`, where the boost is `settings.boost` when
LShift is held (and O is not), `1 / settings.boost` when O is held (and
LShift is not), and `1` when neither is held; with no movement key held
the translation is unchanged. -/
theorem c1_translation_update (t : Transform) (keys : List KeyCode) (dt : ℝ)
    (settings : MovementSettings) :
    (player_move keys dt settings t).translation =
      t.translation +
        Vec3.normalize_or_zero
            (movementVelocity t.moveForward t.moveRight keys) *
          dt * settings.speed * get_boost keys settings ∧
    (KeyCode.LShift ∈ keys → KeyCode.O ∉ keys →
      get_boost keys settings = settings.boost) ∧
    (KeyCode.O ∈ keys → KeyCode.LShift ∉ keys →
      get_boost keys settings = 1 / settings.boost) ∧
    (KeyCode.LShift ∉ keys → KeyCode.O ∉ keys →
      get_boost keys settings = 1) ∧
    ((∀ k ∈ keys, isMovementKey k = false) →
      (player_move keys dt settings t).translation = t.translation) := by
  refine ⟨player_move_translation keys dt settings t,
    get_boost_of_lshift settings keys, get_boost_of_o settings keys,
    get_boost_of_neither settings keys, ?_⟩
  intro hkeys
  rw [player_move_translation,
    movementVelocity_of_no_movement t.moveForward t.moveRight keys hkeys,
    Vec3.normalize_or_zero_zero, Vec3.zero_smul, Vec3.zero_smul,
    Vec3.zero_smul, add_zero]

/-- C1 witness: the boost characterizations and the no-movement case of
the amended claim at concrete key lists. -/
theorem c1_translation_update_witness :
    (KeyCode.LShift ∈ [KeyCode.W, KeyCode.LShift] ∧
      KeyCode.O ∉ [KeyCode.W, KeyCode.LShift] ∧
      get_boost [KeyCode.W, KeyCode.LShift] defaultSettings =
        defaultSettings.boost) ∧
    (KeyCode.O ∈ [KeyCode.O] ∧ KeyCode.LShift ∉ [KeyCode.O] ∧
      get_boost [KeyCode.O] defaultSettings = 1 / defaultSettings.boost) ∧
    (KeyCode.LShift ∉ [KeyCode.W] ∧ KeyCode.O ∉ [KeyCode.W] ∧
      get_boost [KeyCode.W] defaultSettings = 1) ∧
    ((∀ k ∈ [KeyCode.Q], isMovementKey k = false) ∧
      (player_move [KeyCode.Q] 1 defaultSettings t0).translation =
        t0.translation) :=
  ⟨⟨by decide, by decide,
      (c1_translation_update t0 [KeyCode.W, KeyCode.LShift] 1
          defaultSettings).2.1 (by decide) (by decide)⟩,
    ⟨by decide, by decide,
      (c1_translation_update t0 [KeyCode.O] 1 defaultSettings).2.2.1
        (by decide) (by decide)⟩,
    ⟨by decide, by decide,
      (c1_translation_update t0 [KeyCode.W] 1 defaultSettings).2.2.2.1
        (by decide) (by decide)⟩,
    ⟨by decide,
      (c1_translation_update t0 [KeyCode.Q] 1 defaultSettings).2.2.2.2
        (by decide)⟩⟩

/-- C3 counterexample: `player_look` applies no pitch clamp.  One locked
window, one mouse-motion event of 180 degrees of pitch, and the camera's
up vector ends up pointing straight down (negative Y): the camera has been
rotated past straight up/down, so the pitch does not stay in the claimed
bounded range. -/
theorem c3_counterexample :
    (quatMulVec
        (((player_look sUnit (some wLocked) [evFlip] ⟨false, false⟩
                [t0]).1.getD 0 t0).rotation)
        Vec3.yUnit).y < 0 := by
  have h1 : player_look sUnit (some wLocked) [evFlip] ⟨false, false⟩ [t0] =
      ([lookStep sUnit wLocked t0 evFlip], false) := by
    simp [player_look, wLocked]
  have hyaw :
      fromRotY (-(toRadians
          (sUnit.sensitivity * evFlip.delta.x *
            min wLocked.height wLocked.width))) = 1 := by
    have h0 : sUnit.sensitivity * evFlip.delta.x *
        min wLocked.height wLocked.width = 0 := by
      norm_num [sUnit, evFlip, wLocked]
    rw [h0, toRadians, zero_mul, neg_zero, fromRotY_zero]
  have hpitch :
      -(toRadians
          (sUnit.sensitivity * evFlip.delta.y *
            min wLocked.height wLocked.width)) = Real.pi := by
    have harg : sUnit.sensitivity * evFlip.delta.y *
        min wLocked.height wLocked.width = -180 := by
      norm_num [sUnit, evFlip, wLocked]
    rw [harg, toRadians]
    ring_nf
  have h2 : (lookStep sUnit wLocked t0 evFlip).rotation =
      fromRotX Real.pi := by
    show fromRotY (-(toRadians
          (sUnit.sensitivity * evFlip.delta.x *
            min wLocked.height wLocked.width))) * t0.rotation *
        fromRotX (-(toRadians
          (sUnit.sensitivity * evFlip.delta.y *
            min wLocked.height wLocked.width))) = fromRotX Real.pi
    rw [hyaw, hpitch, one_mul]
    show (1 : Quat) * fromRotX Real.pi = fromRotX Real.pi
    rw [one_mul]
  have h3 : quatMulVec (fromRotX Real.pi) Vec3.yUnit = ⟨0, -1, 0⟩ := by
    ext <;>
      simp [quatMulVec, Vec3.cross, Vec3.dot, Real.cos_pi_div_two,
        Real.sin_pi_div_two]
  rw [h1]
  show (quatMulVec (lookStep sUnit wLocked t0 evFlip).rotation
      Vec3.yUnit).y < 0
  rw [h2, h3]
  norm_num

/-- C3 (amended): the look update performs no clamping at all: for any
target pitch angle, including angles past straight up or straight down, a
single mouse-motion event turns the camera by exactly that pitch angle
(and zero yaw), leaving the translation unchanged; the pitch is therefore
not confined to any bounded range. -/
theorem c3_no_pitch_clamp (settings : MovementSettings) (window : Window)
    (t : Transform) (θ : ℝ) (hs : settings.sensitivity ≠ 0)
    (hw : min window.height window.width ≠ 0) :
    ∃ ev : MouseMotion,
      lookStep settings window t ev =
        ⟨t.translation, t.rotation * fromRotX θ⟩ := by
  refine ⟨⟨⟨0, -(θ * (180 / Real.pi)) /
      (settings.sensitivity * min window.height window.width)⟩⟩, ?_⟩
  have hpi : Real.pi ≠ 0 := Real.pi_ne_zero
  have hyaw :
      fromRotY (-(toRadians
          (settings.sensitivity * (0 : ℝ) *
            min window.height window.width))) = 1 := by
    have h0 : settings.sensitivity * (0 : ℝ) *
        min window.height window.width = 0 := by ring
    rw [h0, toRadians, zero_mul, neg_zero, fromRotY_zero]
  have hpitch :
      -(toRadians
          (settings.sensitivity *
            (-(θ * (180 / Real.pi)) /
              (settings.sensitivity * min window.height window.width)) *
            min window.height window.width)) = θ := by
    rw [toRadians]
    field_simp
    ring
  apply Transform.ext
  · rfl
  · show fromRotY (-(toRadians
          (settings.sensitivity * (0 : ℝ) *
            min window.height window.width))) * t.rotation *
        fromRotX (-(toRadians
          (settings.sensitivity *
            (-(θ * (180 / Real.pi)) /
              (settings.sensitivity * min window.height window.width)) *
            min window.height window.width))) = t.rotation * fromRotX θ
    rw [hyaw, hpitch, one_mul]

/-- C3 witness: a single event achieving a pitch of exactly pi radians on
a concrete window and camera. -/
theorem c3_no_pitch_clamp_witness :
    sUnit.sensitivity ≠ 0 ∧ min wLocked.height wLocked.width ≠ 0 ∧
    ∃ ev : MouseMotion,
      lookStep sUnit wLocked t0 ev =
        ⟨t0.translation, t0.rotation * fromRotX Real.pi⟩ :=
  ⟨by norm_num [sUnit], by norm_num [wLocked],
    c3_no_pitch_clamp sUnit wLocked t0 Real.pi (by norm_num [sUnit])
      (by norm_num [wLocked])⟩

/-- C1 counterexample: `player_move` does not normalize the per-key
directions before summing them.  At a pitched camera (rotation `qPitch`)
holding W and Space, the code's translation change is the normalization of
`(horizontal forward) + up = (0, 1, 7/25)`, while the claimed sum of unit
directions gives `normalize(unit forward + up)` — a different direction,
whether the unit forward is read as the normalized horizontal forward
(first conjunct) or as the camera's normalized 3D forward (second
conjunct). -/
theorem c1_counterexample :
    (player_move [KeyCode.W, KeyCode.Space] 1 sUnit tPitched).translation ≠
      tPitched.translation +
        Vec3.normalize_or_zero
            (Vec3.normalize_or_zero tPitched.moveForward + Vec3.yUnit) *
          (1 : ℝ) * sUnit.speed * get_boost [KeyCode.W, KeyCode.Space] sUnit ∧
    (player_move [KeyCode.W, KeyCode.Space] 1 sUnit tPitched).translation ≠
      tPitched.translation +
        Vec3.normalize_or_zero
            (Vec3.normalize_or_zero tPitched.forward + Vec3.yUnit) *
          (1 : ℝ) * sUnit.speed * get_boost [KeyCode.W, KeyCode.Space] sUnit := by
  have htr : tPitched.translation = 0 := rfl
  have hspeed : sUnit.speed = 1 := rfl
  have hboost : get_boost [KeyCode.W, KeyCode.Space] sUnit = 1 := rfl
  have hn : 0 < Vec3.norm ⟨0, 1, 7 / 25⟩ := by
    apply Vec3.norm_pos
    norm_num [Vec3.dot]
  have hnormv : Vec3.normalize_or_zero ⟨0, 1, 7 / 25⟩ =
      (⟨0, 1, 7 / 25⟩ : Vec3) * (1 / Vec3.norm ⟨0, 1, 7 / 25⟩) :=
    Vec3.normalize_or_zero_of_norm_ne _ hn.ne'
  have hcode :
      (player_move [KeyCode.W, KeyCode.Space] 1 sUnit tPitched).translation =
        (⟨0, 1, 7 / 25⟩ : Vec3) * (1 / Vec3.norm ⟨0, 1, 7 / 25⟩) := by
    rw [player_move_translation, mv_wspace, hnormv, htr, hspeed, hboost,
      Vec3.smul_one, Vec3.smul_one, Vec3.smul_one, zero_add]
  have hufwd : Vec3.normalize_or_zero tPitched.moveForward =
      ⟨0, 0, 1⟩ := by
    rw [tPitched_moveForward]
    have hd : Vec3.dot ⟨0, 0, 7 / 25⟩ ⟨0, 0, 7 / 25⟩ = (7 / 25) ^ 2 := by
      norm_num [Vec3.dot]
    have hnorm : Vec3.norm ⟨0, 0, 7 / 25⟩ = 7 / 25 := by
      rw [Vec3.norm, hd, Real.sqrt_sq (by norm_num)]
    rw [Vec3.normalize_or_zero_of_norm_ne _ (by rw [hnorm]; norm_num), hnorm]
    ext <;> simp
  have hvb : Vec3.normalize_or_zero tPitched.moveForward + Vec3.yUnit =
      (⟨0, 1, 1⟩ : Vec3) := by
    rw [hufwd]
    ext <;> simp
  have hm : 0 < Vec3.norm ⟨0, 1, 1⟩ := by
    apply Vec3.norm_pos
    norm_num [Vec3.dot]
  have hclaimb :
      tPitched.translation +
          Vec3.normalize_or_zero
              (Vec3.normalize_or_zero tPitched.moveForward + Vec3.yUnit) *
            (1 : ℝ) * sUnit.speed * get_boost [KeyCode.W, KeyCode.Space] sUnit =
        (⟨0, 1, 1⟩ : Vec3) * (1 / Vec3.norm ⟨0, 1, 1⟩) := by
    rw [hvb, Vec3.normalize_or_zero_of_norm_ne _ hm.ne', htr, hspeed, hboost,
      Vec3.smul_one, Vec3.smul_one, Vec3.smul_one, zero_add]
  have hufa : Vec3.normalize_or_zero tPitched.forward =
      ⟨0, 24 / 25, 7 / 25⟩ := by
    rw [tPitched_forward]
    have hd : Vec3.dot ⟨0, 24 / 25, 7 / 25⟩ ⟨0, 24 / 25, 7 / 25⟩ = 1 := by
      norm_num [Vec3.dot]
    have hnorm : Vec3.norm ⟨0, 24 / 25, 7 / 25⟩ = 1 := by
      rw [Vec3.norm, hd, Real.sqrt_one]
    rw [Vec3.normalize_or_zero_of_norm_ne _ (by rw [hnorm]; norm_num), hnorm]
    ext <;> simp
  have hva : Vec3.normalize_or_zero tPitched.forward + Vec3.yUnit =
      (⟨0, 49 / 25, 7 / 25⟩ : Vec3) := by
    rw [hufa]
    ext <;> simp
    norm_num
  have hma : 0 < Vec3.norm ⟨0, 49 / 25, 7 / 25⟩ := by
    apply Vec3.norm_pos
    norm_num [Vec3.dot]
  have hclaima :
      tPitched.translation +
          Vec3.normalize_or_zero
              (Vec3.normalize_or_zero tPitched.forward + Vec3.yUnit) *
            (1 : ℝ) * sUnit.speed * get_boost [KeyCode.W, KeyCode.Space] sUnit =
        (⟨0, 49 / 25, 7 / 25⟩ : Vec3) *
          (1 / Vec3.norm ⟨0, 49 / 25, 7 / 25⟩) := by
    rw [hva, Vec3.normalize_or_zero_of_norm_ne _ hma.ne', htr, hspeed,
      hboost, Vec3.smul_one, Vec3.smul_one, Vec3.smul_one, zero_add]
  have hninv : 0 < 1 / Vec3.norm ⟨0, 1, 7 / 25⟩ := by positivity
  constructor
  · intro h
    rw [hcode, hclaimb] at h
    have hy : (1 : ℝ) * (1 / Vec3.norm ⟨0, 1, 7 / 25⟩) =
        1 * (1 / Vec3.norm ⟨0, 1, 1⟩) := congrArg Vec3.y h
    have hz : (7 / 25 : ℝ) * (1 / Vec3.norm ⟨0, 1, 7 / 25⟩) =
        1 * (1 / Vec3.norm ⟨0, 1, 1⟩) := congrArg Vec3.z h
    rw [one_mul] at hy
    rw [← hy] at hz
    linarith
  · intro h
    rw [hcode, hclaima] at h
    have hy : (1 : ℝ) * (1 / Vec3.norm ⟨0, 1, 7 / 25⟩) =
        49 / 25 * (1 / Vec3.norm ⟨0, 49 / 25, 7 / 25⟩) := congrArg Vec3.y h
    have hz : (7 / 25 : ℝ) * (1 / Vec3.norm ⟨0, 1, 7 / 25⟩) =
        7 / 25 * (1 / Vec3.norm ⟨0, 49 / 25, 7 / 25⟩) := congrArg Vec3.z h
    have hzz : 1 / Vec3.norm ⟨0, 1, 7 / 25⟩ =
        1 / Vec3.norm ⟨0, 49 / 25, 7 / 25⟩ := by linarith
    rw [one_mul, hzz] at hy
    rw [hzz] at hninv
    linarith

end Flycam
